import Mathlib

/-!
Verification development for the QuadTree spatial index (src/QuadTree.hpp).

The embedding models coordinates as exact rationals (the C++ class is generic
over a numeric `Bound` type with fields `x`, `y`).  A tree node is either a
leaf (all four `children_nodes` pointers null) or an internal node with four
children, which is the all-or-nothing discipline the source maintains: children
are only ever created all at once by `split`, and only ever discarded all at
once by `clear`.  Object references are modelled as values carrying an identity
tag together with the `getPosition` / `getSize` accessors the source requires.
-/

attribute [local semireducible] Rat.add Rat.sub Rat.mul Rat.inv

/-- Bound: the numeric coordinate pair type required of the `Bound` template
parameter (public fields `x`, `y`). -/
structure Bound where
  x : Rat
  y : Rat
deriving DecidableEq

/-- Object held by the tree: an identity (standing for the object's address,
since the tree stores non-owning pointers) plus the `getPosition` and
`getSize` accessors required of the `T` template parameter. -/
structure Obj where
  oid : Nat
  getPosition : Bound
  getSize : Bound
deriving DecidableEq

/-- QuadTree node.  `leaf` is a node whose `children_nodes` are all null;
`node` has four children `c0 c1 c2 c3` (quadrants I, II, III, IV).  Fields
mirror the source: `top_left`, `bottom_right`, `max_objects`, `level`,
`max_level`, `node_objects`. -/
inductive QuadTree : Type where
  | leaf (top_left bottom_right : Bound) (max_objects level max_level : Nat)
      (node_objects : List Obj)
  | node (top_left bottom_right : Bound) (max_objects level max_level : Nat)
      (node_objects : List Obj) (c0 c1 c2 c3 : QuadTree)
deriving DecidableEq

namespace QuadTree

/-- Field accessor: bound of the top left corner. -/
def top_left : QuadTree → Bound
  | .leaf tl _ _ _ _ _ => tl
  | .node tl _ _ _ _ _ _ _ _ _ => tl

/-- Field accessor: bound of the bottom right corner. -/
def bottom_right : QuadTree → Bound
  | .leaf _ br _ _ _ _ => br
  | .node _ br _ _ _ _ _ _ _ _ => br

/-- Field accessor: maximum number of objects held before a split. -/
def max_objects : QuadTree → Nat
  | .leaf _ _ mo _ _ _ => mo
  | .node _ _ mo _ _ _ _ _ _ _ => mo

/-- Field accessor: the node's level (depth, 0 at the root). -/
def level : QuadTree → Nat
  | .leaf _ _ _ lv _ _ => lv
  | .node _ _ _ lv _ _ _ _ _ _ => lv

/-- Field accessor: maximum available level. -/
def max_level : QuadTree → Nat
  | .leaf _ _ _ _ ml _ => ml
  | .node _ _ _ _ ml _ _ _ _ _ => ml

/-- Field accessor: the objects held directly in this node. -/
def node_objects : QuadTree → List Obj
  | .leaf _ _ _ _ _ objs => objs
  | .node _ _ _ _ _ objs _ _ _ _ => objs

/-- True iff `children_nodes[0] == nullptr`, the leaf test the source uses. -/
def isLeaf : QuadTree → Bool
  | .leaf .. => true
  | .node .. => false

/-- Constructor `QuadTree(pLevel, top_left, bottom_right, max_objects,
max_level)`: an empty leaf. -/
def create (pLevel : Nat) (tl br : Bound) (mo ml : Nat) : QuadTree :=
  .leaf tl br mo pLevel ml []

/-- `is_inside`: inclusive AABB overlap test between the object's rectangle and
this node's bounds, exactly the four comparisons of the source. -/
def is_inside (t : QuadTree) (o : Obj) : Bool :=
  decide (o.getPosition.x + o.getSize.x ≥ t.top_left.x) &&
  decide (o.getPosition.x ≤ t.bottom_right.x) &&
  decide (o.getPosition.y + o.getSize.y ≥ t.top_left.y) &&
  decide (o.getPosition.y ≤ t.bottom_right.y)

/-- `split`: builds the four children (quadrants I, II, III, IV) of a node with
the given fields, each an empty leaf at `level + 1`. -/
def split (tl br : Bound) (mo lv ml : Nat) :
    QuadTree × QuadTree × QuadTree × QuadTree :=
  ( .leaf ⟨tl.x + (br.x - tl.x) / 2, tl.y⟩ ⟨br.x, tl.y + (br.y - tl.y) / 2⟩
      mo (lv + 1) ml []
  , .leaf ⟨tl.x, tl.y⟩ ⟨tl.x + (br.x - tl.x) / 2, tl.y + (br.y - tl.y) / 2⟩
      mo (lv + 1) ml []
  , .leaf ⟨tl.x, tl.y + (br.y - tl.y) / 2⟩ ⟨tl.x + (br.x - tl.x) / 2, br.y⟩
      mo (lv + 1) ml []
  , .leaf ⟨tl.x + (br.x - tl.x) / 2, tl.y + (br.y - tl.y) / 2⟩ ⟨br.x, br.y⟩
      mo (lv + 1) ml [] )

/-- `children_nodes[j]->node_objects.push_back(tmpObj)`: append an object
directly to a node's local list. -/
def pushTo (c : QuadTree) (o : Obj) : QuadTree :=
  match c with
  | .leaf tl br mo lv ml objs => .leaf tl br mo lv ml (objs ++ [o])
  | .node tl br mo lv ml objs a b cc dd => .node tl br mo lv ml (objs ++ [o]) a b cc dd

/-- One iteration of the redistribution while-loop body: offer one popped
object to every child whose bounds overlap it, by direct push. -/
def distribOne (cs : QuadTree × QuadTree × QuadTree × QuadTree) (o : Obj) :
    QuadTree × QuadTree × QuadTree × QuadTree :=
  ( if cs.1.is_inside o then pushTo cs.1 o else cs.1
  , if cs.2.1.is_inside o then pushTo cs.2.1 o else cs.2.1
  , if cs.2.2.1.is_inside o then pushTo cs.2.2.1 o else cs.2.2.1
  , if cs.2.2.2.is_inside o then pushTo cs.2.2.2 o else cs.2.2.2 )

/-- The redistribution while-loop: it pops objects from the back of the list,
so it processes the held objects in reverse order. -/
def redistribute (objs : List Obj)
    (cs : QuadTree × QuadTree × QuadTree × QuadTree) :
    QuadTree × QuadTree × QuadTree × QuadTree :=
  objs.reverse.foldl distribOne cs

/-- The tail of `insert`'s leaf branch, after `node_objects.push_back(&object)`
has produced list `objs`: if the list overflows and the level allows it, split
and redistribute, clearing the local list; otherwise remain a leaf. -/
def afterPush (tl br : Bound) (mo lv ml : Nat) (objs : List Obj) : QuadTree :=
  if objs.length > mo ∧ lv < ml then
    .node tl br mo lv ml []
      (redistribute objs (split tl br mo lv ml)).1
      (redistribute objs (split tl br mo lv ml)).2.1
      (redistribute objs (split tl br mo lv ml)).2.2.1
      (redistribute objs (split tl br mo lv ml)).2.2.2
  else .leaf tl br mo lv ml objs

/-- `insert`: at an internal node, recursively insert into every child whose
bounds overlap the object; at a leaf, push the object and then run the
overflow check. -/
def insert : QuadTree → Obj → QuadTree
  | .node tl br mo lv ml objs a b c d, o =>
      .node tl br mo lv ml objs
        (if a.is_inside o then insert a o else a)
        (if b.is_inside o then insert b o else b)
        (if c.is_inside o then insert c o else c)
        (if d.is_inside o then insert d o else d)
  | .leaf tl br mo lv ml objs, o => afterPush tl br mo lv ml (objs ++ [o])

/-- `retrieve`: at a leaf, append every locally stored object to the
accumulator; at an internal node, recurse (threading the accumulator) into
exactly the children whose bounds overlap the query object. -/
def retrieve : QuadTree → List Obj → Obj → List Obj
  | .leaf _ _ _ _ _ objs, acc, _ => acc ++ objs
  | .node _ _ _ _ _ _ a b c d, acc, o =>
      let r0 := if a.is_inside o then retrieve a acc o else acc
      let r1 := if b.is_inside o then retrieve b r0 o else r0
      let r2 := if c.is_inside o then retrieve c r1 o else r1
      if d.is_inside o then retrieve d r2 o else r2

/-- `clear`: empties the local object list and recursively clears and discards
every child, leaving an empty leaf with the same bounds and parameters. -/
def clear : QuadTree → QuadTree
  | .leaf tl br mo lv ml _ => .leaf tl br mo lv ml []
  | .node tl br mo lv ml _ _ _ _ _ => .leaf tl br mo lv ml []

/-- Trees reachable from constructing a root (depth 0) over the given bounds
and parameters by any sequence of `insert` and `clear` calls (`retrieve` does
not modify the tree). -/
inductive Reachable (tl br : Bound) (mo ml : Nat) : QuadTree → Prop where
  | init : Reachable tl br mo ml (create 0 tl br mo ml)
  | step_insert {t : QuadTree} (o : Obj) :
      Reachable tl br mo ml t → Reachable tl br mo ml (insert t o)
  | step_clear {t : QuadTree} :
      Reachable tl br mo ml t → Reachable tl br mo ml (clear t)

/-- Inclusive AABB overlap between two objects' rectangles (the same test
`is_inside` performs, applied to a query object's rectangle in place of node
bounds). -/
def objOverlap (o q : Obj) : Prop :=
  o.getPosition.x + o.getSize.x ≥ q.getPosition.x ∧
  o.getPosition.x ≤ q.getPosition.x + q.getSize.x ∧
  o.getPosition.y + o.getSize.y ≥ q.getPosition.y ∧
  o.getPosition.y ≤ q.getPosition.y + q.getSize.y

instance (o q : Obj) : Decidable (objOverlap o q) := by
  unfold objOverlap; infer_instance

/-- The child rectangle lies inside the rectangle with corners `tl`, `br`. -/
def childB (tl br : Bound) (c : QuadTree) : Prop :=
  tl.x ≤ c.top_left.x ∧ c.bottom_right.x ≤ br.x ∧
  tl.y ≤ c.top_left.y ∧ c.bottom_right.y ≤ br.y

instance (tl br : Bound) (c : QuadTree) : Decidable (childB tl br c) := by
  unfold childB; infer_instance

/-- Geometric well-formedness: every node has ordered bounds and every child's
bounds are nested inside its parent's.  This holds for every tree the program
builds from ordered root bounds. -/
def wfP : QuadTree → Prop
  | .leaf tl br _ _ _ _ => tl.x ≤ br.x ∧ tl.y ≤ br.y
  | .node tl br _ _ _ _ a b c d =>
      (tl.x ≤ br.x ∧ tl.y ≤ br.y) ∧
      childB tl br a ∧ childB tl br b ∧ childB tl br c ∧ childB tl br d ∧
      wfP a ∧ wfP b ∧ wfP c ∧ wfP d

instance wfP_dec : (t : QuadTree) → Decidable (wfP t)
  | .leaf tl br mo lv ml objs => by unfold wfP; infer_instance
  | .node tl br mo lv ml objs a b c d => by
      unfold wfP
      have := wfP_dec a; have := wfP_dec b; have := wfP_dec c; have := wfP_dec d
      infer_instance

/-- The object `o` is stored in at least one leaf of `t` whose bounds overlap
the query object `q`'s rectangle. -/
def inLeafO : QuadTree → Obj → Obj → Prop
  | .leaf tl br mo lv ml objs, q, o =>
      (QuadTree.leaf tl br mo lv ml objs).is_inside q = true ∧ o ∈ objs
  | .node _ _ _ _ _ _ a b c d, q, o =>
      inLeafO a q o ∨ inLeafO b q o ∨ inLeafO c q o ∨ inLeafO d q o

instance inLeafO_dec : (t : QuadTree) → (q o : Obj) → Decidable (inLeafO t q o)
  | .leaf tl br mo lv ml objs, q, o => by unfold inLeafO; infer_instance
  | .node tl br mo lv ml objs a b c d, q, o => by
      unfold inLeafO
      have := inLeafO_dec a q o; have := inLeafO_dec b q o
      have := inLeafO_dec c q o; have := inLeafO_dec d q o
      infer_instance

/-- Number of stored references of `o` counted over all leaves of `t` whose
bounds overlap the query object `q`'s rectangle. -/
def leafHits : QuadTree → Obj → Obj → Nat
  | .leaf tl br mo lv ml objs, q, o =>
      if (QuadTree.leaf tl br mo lv ml objs).is_inside q then objs.count o else 0
  | .node _ _ _ _ _ _ a b c d, q, o =>
      leafHits a q o + leafHits b q o + leafHits c q o + leafHits d q o

/-- Depth discipline: every node's level is at most its `max_level`, and every
child carries level `parent level + 1` and the same `max_level`. -/
def depthOk : QuadTree → Prop
  | .leaf _ _ _ lv ml _ => lv ≤ ml
  | .node _ _ _ lv ml _ a b c d =>
      lv ≤ ml ∧
      a.level = lv + 1 ∧ b.level = lv + 1 ∧ c.level = lv + 1 ∧ d.level = lv + 1 ∧
      a.max_level = ml ∧ b.max_level = ml ∧ c.max_level = ml ∧ d.max_level = ml ∧
      depthOk a ∧ depthOk b ∧ depthOk c ∧ depthOk d

instance depthOk_dec : (t : QuadTree) → Decidable (depthOk t)
  | .leaf tl br mo lv ml objs => by unfold depthOk; infer_instance
  | .node tl br mo lv ml objs a b c d => by
      unfold depthOk
      have := depthOk_dec a; have := depthOk_dec b
      have := depthOk_dec c; have := depthOk_dec d
      infer_instance

/-- Some leaf of `t` holds more than `max_objects` objects while its level is
still below `max_level`. -/
def overfullLeaf : QuadTree → Prop
  | .leaf _ _ mo lv ml objs => lv < ml ∧ mo < objs.length
  | .node _ _ _ _ _ _ a b c d =>
      overfullLeaf a ∨ overfullLeaf b ∨ overfullLeaf c ∨ overfullLeaf d

instance overfullLeaf_dec : (t : QuadTree) → Decidable (overfullLeaf t)
  | .leaf tl br mo lv ml objs => by unfold overfullLeaf; infer_instance
  | .node tl br mo lv ml objs a b c d => by
      unfold overfullLeaf
      have := overfullLeaf_dec a; have := overfullLeaf_dec b
      have := overfullLeaf_dec c; have := overfullLeaf_dec d
      infer_instance

/-- All object references stored anywhere in the tree. -/
def allObjects : QuadTree → List Obj
  | .leaf _ _ _ _ _ objs => objs
  | .node _ _ _ _ _ objs a b c d =>
      objs ++ allObjects a ++ allObjects b ++ allObjects c ++ allObjects d

/-- Appending objects one by one via `pushTo` (what the redistribution loop
does to a receiving child). -/
def pushAll (c : QuadTree) (os : List Obj) : QuadTree :=
  os.foldl pushTo c

/-- One step of `retrieve`'s loop over children: recurse into the child iff
its bounds overlap the query object. -/
def rstep (c : QuadTree) (o : Obj) (acc : List Obj) : List Obj :=
  if c.is_inside o then retrieve c acc o else acc

/-- A point lies (inclusively) in the axis-aligned rectangle with x-range
`[lx, ux]` and y-range `[ly, uy]`. -/
def pointIn (lx ux ly uy px py : Rat) : Prop :=
  lx ≤ px ∧ px ≤ ux ∧ ly ≤ py ∧ py ≤ uy

/-- Specification of `split`'s geometry: the four children are exactly the
quadrant leaves at `level + 1`, they cover the parent rectangle exactly, all
four have width `hf_width` and height `hf_height`, and any point shared by two
distinct children lies on a midpoint line. -/
def splitGeom (tl br : Bound) (mo lv ml : Nat) : Prop :=
  split tl br mo lv ml =
    ( .leaf ⟨tl.x + (br.x - tl.x) / 2, tl.y⟩ ⟨br.x, tl.y + (br.y - tl.y) / 2⟩
        mo (lv + 1) ml []
    , .leaf ⟨tl.x, tl.y⟩ ⟨tl.x + (br.x - tl.x) / 2, tl.y + (br.y - tl.y) / 2⟩
        mo (lv + 1) ml []
    , .leaf ⟨tl.x, tl.y + (br.y - tl.y) / 2⟩ ⟨tl.x + (br.x - tl.x) / 2, br.y⟩
        mo (lv + 1) ml []
    , .leaf ⟨tl.x + (br.x - tl.x) / 2, tl.y + (br.y - tl.y) / 2⟩ ⟨br.x, br.y⟩
        mo (lv + 1) ml [] ) ∧
  (∀ px py : Rat,
    pointIn tl.x br.x tl.y br.y px py ↔
      (pointIn (tl.x + (br.x - tl.x) / 2) br.x tl.y (tl.y + (br.y - tl.y) / 2) px py ∨
       pointIn tl.x (tl.x + (br.x - tl.x) / 2) tl.y (tl.y + (br.y - tl.y) / 2) px py ∨
       pointIn tl.x (tl.x + (br.x - tl.x) / 2) (tl.y + (br.y - tl.y) / 2) br.y px py ∨
       pointIn (tl.x + (br.x - tl.x) / 2) br.x (tl.y + (br.y - tl.y) / 2) br.y px py)) ∧
  (br.x - (tl.x + (br.x - tl.x) / 2) = (br.x - tl.x) / 2 ∧
   (tl.x + (br.x - tl.x) / 2) - tl.x = (br.x - tl.x) / 2 ∧
   br.y - (tl.y + (br.y - tl.y) / 2) = (br.y - tl.y) / 2 ∧
   (tl.y + (br.y - tl.y) / 2) - tl.y = (br.y - tl.y) / 2) ∧
  (∀ px py : Rat,
    (pointIn (tl.x + (br.x - tl.x) / 2) br.x tl.y (tl.y + (br.y - tl.y) / 2) px py ∧
     pointIn tl.x (tl.x + (br.x - tl.x) / 2) tl.y (tl.y + (br.y - tl.y) / 2) px py →
      px = tl.x + (br.x - tl.x) / 2 ∨ py = tl.y + (br.y - tl.y) / 2) ∧
    (pointIn (tl.x + (br.x - tl.x) / 2) br.x tl.y (tl.y + (br.y - tl.y) / 2) px py ∧
     pointIn tl.x (tl.x + (br.x - tl.x) / 2) (tl.y + (br.y - tl.y) / 2) br.y px py →
      px = tl.x + (br.x - tl.x) / 2 ∨ py = tl.y + (br.y - tl.y) / 2) ∧
    (pointIn (tl.x + (br.x - tl.x) / 2) br.x tl.y (tl.y + (br.y - tl.y) / 2) px py ∧
     pointIn (tl.x + (br.x - tl.x) / 2) br.x (tl.y + (br.y - tl.y) / 2) br.y px py →
      px = tl.x + (br.x - tl.x) / 2 ∨ py = tl.y + (br.y - tl.y) / 2) ∧
    (pointIn tl.x (tl.x + (br.x - tl.x) / 2) tl.y (tl.y + (br.y - tl.y) / 2) px py ∧
     pointIn tl.x (tl.x + (br.x - tl.x) / 2) (tl.y + (br.y - tl.y) / 2) br.y px py →
      px = tl.x + (br.x - tl.x) / 2 ∨ py = tl.y + (br.y - tl.y) / 2) ∧
    (pointIn tl.x (tl.x + (br.x - tl.x) / 2) tl.y (tl.y + (br.y - tl.y) / 2) px py ∧
     pointIn (tl.x + (br.x - tl.x) / 2) br.x (tl.y + (br.y - tl.y) / 2) br.y px py →
      px = tl.x + (br.x - tl.x) / 2 ∨ py = tl.y + (br.y - tl.y) / 2) ∧
    (pointIn tl.x (tl.x + (br.x - tl.x) / 2) (tl.y + (br.y - tl.y) / 2) br.y px py ∧
     pointIn (tl.x + (br.x - tl.x) / 2) br.x (tl.y + (br.y - tl.y) / 2) br.y px py →
      px = tl.x + (br.x - tl.x) / 2 ∨ py = tl.y + (br.y - tl.y) / 2))

/-- Root bounds used in the concrete scenarios: (0,0)-(100,100). -/
def bTL : Bound := ⟨0, 0⟩

/-- See `bTL`. -/
def bBR : Bound := ⟨100, 100⟩

/-- Scenario object A at (10,10), size (5,5). -/
def oA : Obj := ⟨1, ⟨10, 10⟩, ⟨5, 5⟩⟩

/-- Scenario object B at (60,60), size (5,5). -/
def oB : Obj := ⟨2, ⟨60, 60⟩, ⟨5, 5⟩⟩

/-- Object at (20,20), size (5,5): lands in the same quadrant as `oA`. -/
def oC : Obj := ⟨3, ⟨20, 20⟩, ⟨5, 5⟩⟩

/-- Object at (48,48), size (4,4): straddles both midpoint lines, so it
overlaps all four quadrants of the (0,0)-(100,100) region. -/
def oS : Obj := ⟨4, ⟨48, 48⟩, ⟨4, 4⟩⟩

/-- Object entirely outside the (0,0)-(100,100) region. -/
def oOut : Obj := ⟨5, ⟨200, 200⟩, ⟨5, 5⟩⟩

/-- Another object entirely outside the (0,0)-(100,100) region. -/
def oOut2 : Obj := ⟨6, ⟨300, 300⟩, ⟨5, 5⟩⟩

/-- Query at (10,10), size (5,5). -/
def qA : Obj := ⟨7, ⟨10, 10⟩, ⟨5, 5⟩⟩

/-- Query spanning the whole (0,0)-(100,100) region. -/
def qAll : Obj := ⟨8, ⟨0, 0⟩, ⟨100, 100⟩⟩

/-- Query at (40,40), size (20,20): overlaps all four quadrants. -/
def qMid : Obj := ⟨9, ⟨40, 40⟩, ⟨20, 20⟩⟩

/-- The end-to-end scenario tree after inserting A. -/
def sampleT1 : QuadTree := insert (create 0 bTL bBR 1 4) oA

/-- The end-to-end scenario tree after inserting A then B (split occurred). -/
def sampleT2 : QuadTree := insert sampleT1 oB

/-- Tree with a straddling object stored in all four sibling leaves. -/
def dupTree : QuadTree := insert (insert (create 0 bTL bBR 1 4) oS) oB

theorem retrieve_leaf_eq (tl br : Bound) (mo lv ml : Nat) (objs acc : List Obj)
    (o : Obj) : retrieve (.leaf tl br mo lv ml objs) acc o = acc ++ objs := rfl

theorem retrieve_node_eq (tl br : Bound) (mo lv ml : Nat) (objs : List Obj)
    (a b c d : QuadTree) (acc : List Obj) (o : Obj) :
    retrieve (.node tl br mo lv ml objs a b c d) acc o =
      rstep d o (rstep c o (rstep b o (rstep a o acc))) := rfl

theorem insert_leaf_eq (tl br : Bound) (mo lv ml : Nat) (objs : List Obj)
    (o : Obj) :
    insert (.leaf tl br mo lv ml objs) o = afterPush tl br mo lv ml (objs ++ [o]) := rfl

theorem insert_node_eq (tl br : Bound) (mo lv ml : Nat) (objs : List Obj)
    (a b c d : QuadTree) (o : Obj) :
    insert (.node tl br mo lv ml objs a b c d) o =
      .node tl br mo lv ml objs
        (if a.is_inside o then insert a o else a)
        (if b.is_inside o then insert b o else b)
        (if c.is_inside o then insert c o else c)
        (if d.is_inside o then insert d o else d) := rfl

/-- Everything already in the accumulator stays in `retrieve`'s result. -/
theorem retrieve_mono (t : QuadTree) :
    ∀ (acc : List Obj) (q x : Obj), x ∈ acc → x ∈ retrieve t acc q := by
  induction t with
  | leaf tl br mo lv ml objs =>
      intro acc q x hx
      rw [retrieve_leaf_eq]
      exact List.mem_append_left _ hx
  | node tl br mo lv ml objs a b c d iha ihb ihc ihd =>
      intro acc q x hx
      rw [retrieve_node_eq]
      have h0 : x ∈ rstep a q acc := by
        unfold rstep; split
        · exact iha _ _ _ hx
        · exact hx
      have h1 : x ∈ rstep b q (rstep a q acc) := by
        unfold rstep; split
        · exact ihb _ _ _ h0
        · exact h0
      have h2 : x ∈ rstep c q (rstep b q (rstep a q acc)) := by
        unfold rstep; split
        · exact ihc _ _ _ h1
        · exact h1
      unfold rstep; split
      · exact ihd _ _ _ h2
      · exact h2

theorem pushTo_is_inside (c : QuadTree) (o x : Obj) :
    (pushTo c o).is_inside x = c.is_inside x := by
  cases c <;> simp [pushTo, is_inside, top_left, bottom_right]

theorem pushAll_leaf (tl br : Bound) (mo lv ml : Nat) :
    ∀ (os l : List Obj),
      pushAll (.leaf tl br mo lv ml l) os = .leaf tl br mo lv ml (l ++ os) := by
  intro os
  induction os with
  | nil => intro l; simp [pushAll]
  | cons o os ih =>
      intro l
      show pushAll (pushTo (.leaf tl br mo lv ml l) o) os = _
      rw [show pushTo (QuadTree.leaf tl br mo lv ml l) o
            = QuadTree.leaf tl br mo lv ml (l ++ [o]) from rfl, ih]
      simp

theorem foldl_distribOne (os : List Obj) :
    ∀ a b c d : QuadTree,
      os.foldl distribOne (a, b, c, d) =
        ( pushAll a (os.filter fun x => a.is_inside x)
        , pushAll b (os.filter fun x => b.is_inside x)
        , pushAll c (os.filter fun x => c.is_inside x)
        , pushAll d (os.filter fun x => d.is_inside x) ) := by
  induction os with
  | nil => intro a b c d; simp [pushAll]
  | cons o os ih =>
      intro a b c d
      rw [List.foldl_cons,
        show distribOne (a, b, c, d) o
          = ( if a.is_inside o then pushTo a o else a
            , if b.is_inside o then pushTo b o else b
            , if c.is_inside o then pushTo c o else c
            , if d.is_inside o then pushTo d o else d ) from rfl, ih]
      have step : ∀ (t : QuadTree),
          pushAll (if t.is_inside o then pushTo t o else t)
              (os.filter fun x => (if t.is_inside o then pushTo t o else t).is_inside x)
            = pushAll t ((o :: os).filter fun x => t.is_inside x) := by
        intro t
        cases h : t.is_inside o with
        | true =>
            simp only [h, if_true]
            rw [List.filter_congr (fun x _ => by rw [pushTo_is_inside])]
            rw [List.filter_cons_of_pos (by simpa using h)]
            rfl
        | false =>
            rw [if_neg (by simp [h])]
            rw [List.filter_cons_of_neg (by simpa using h)]
      rw [step a, step b, step c, step d]

/-- The redistribution loop appends to each child exactly the held objects
(in reverse order) whose rectangles overlap that child's bounds. -/
theorem redistribute_spec (objs : List Obj) (a b c d : QuadTree) :
    redistribute objs (a, b, c, d) =
      ( pushAll a (objs.reverse.filter fun x => a.is_inside x)
      , pushAll b (objs.reverse.filter fun x => b.is_inside x)
      , pushAll c (objs.reverse.filter fun x => c.is_inside x)
      , pushAll d (objs.reverse.filter fun x => d.is_inside x) ) := by
  unfold redistribute
  exact foldl_distribOne _ a b c d

theorem redistribute_proj (objs : List Obj)
    (cs : QuadTree × QuadTree × QuadTree × QuadTree) :
    (redistribute objs cs).1
        = pushAll cs.1 (objs.reverse.filter fun x => cs.1.is_inside x) ∧
    (redistribute objs cs).2.1
        = pushAll cs.2.1 (objs.reverse.filter fun x => cs.2.1.is_inside x) ∧
    (redistribute objs cs).2.2.1
        = pushAll cs.2.2.1 (objs.reverse.filter fun x => cs.2.2.1.is_inside x) ∧
    (redistribute objs cs).2.2.2
        = pushAll cs.2.2.2 (objs.reverse.filter fun x => cs.2.2.2.is_inside x) := by
  have h : cs = (cs.1, cs.2.1, cs.2.2.1, cs.2.2.2) := rfl
  rw [h, redistribute_spec]
  exact ⟨rfl, rfl, rfl, rfl⟩

/-- Inserting at an overflowing leaf below `max_level` produces an internal
node with an empty local list whose children are the fresh `split` leaves,
each holding exactly the held objects (processed in reverse order) whose
rectangles overlap that child's bounds. -/
theorem insert_overflow_eq (tl br : Bound) (mo lv ml : Nat) (objs : List Obj)
    (o : Obj) (h1 : mo < (objs ++ [o]).length) (h2 : lv < ml) :
    insert (.leaf tl br mo lv ml objs) o =
      .node tl br mo lv ml []
        (pushAll (split tl br mo lv ml).1
          (((objs ++ [o]).reverse).filter fun x => (split tl br mo lv ml).1.is_inside x))
        (pushAll (split tl br mo lv ml).2.1
          (((objs ++ [o]).reverse).filter fun x => (split tl br mo lv ml).2.1.is_inside x))
        (pushAll (split tl br mo lv ml).2.2.1
          (((objs ++ [o]).reverse).filter fun x => (split tl br mo lv ml).2.2.1.is_inside x))
        (pushAll (split tl br mo lv ml).2.2.2
          (((objs ++ [o]).reverse).filter fun x => (split tl br mo lv ml).2.2.2.is_inside x)) := by
  rw [insert_leaf_eq]
  unfold afterPush
  rw [if_pos ⟨h1, h2⟩]
  obtain ⟨e1, e2, e3, e4⟩ :=
    redistribute_proj (objs ++ [o]) (split tl br mo lv ml)
  rw [e1, e2, e3, e4]

/-- Inserting at a leaf that does not overflow (or is at `max_level`) just
appends to the local list. -/
theorem insert_noSplit_eq (tl br : Bound) (mo lv ml : Nat) (objs : List Obj)
    (o : Obj) (h : ¬((objs ++ [o]).length > mo ∧ lv < ml)) :
    insert (.leaf tl br mo lv ml objs) o = .leaf tl br mo lv ml (objs ++ [o]) := by
  rw [insert_leaf_eq]
  unfold afterPush
  rw [if_neg h]

/-- `insert` never changes a node's bounds, parameters, or level. -/
theorem insert_fields (t : QuadTree) (o : Obj) :
    (insert t o).top_left = t.top_left ∧
    (insert t o).bottom_right = t.bottom_right ∧
    (insert t o).max_objects = t.max_objects ∧
    (insert t o).level = t.level ∧
    (insert t o).max_level = t.max_level := by
  cases t with
  | node tl br mo lv ml objs a b c d =>
      rw [insert_node_eq]
      exact ⟨rfl, rfl, rfl, rfl, rfl⟩
  | leaf tl br mo lv ml objs =>
      rw [insert_leaf_eq]
      unfold afterPush
      split <;> exact ⟨rfl, rfl, rfl, rfl, rfl⟩

/-- `clear` always produces an empty leaf carrying the node's own fields. -/
theorem clear_eq (t : QuadTree) :
    clear t = .leaf t.top_left t.bottom_right t.max_objects t.level t.max_level [] := by
  cases t <;> rfl

/-- If a child's rectangle is nested in a node's rectangle, any object
overlapping the child also overlaps the node. -/
theorem is_inside_mono (p c : QuadTree) (q : Obj)
    (hcb : childB p.top_left p.bottom_right c) (h : c.is_inside q = true) :
    p.is_inside q = true := by
  obtain ⟨h1, h2, h3, h4⟩ := hcb
  simp only [is_inside, Bool.and_eq_true, decide_eq_true_iff, ge_iff_le] at h ⊢
  obtain ⟨⟨⟨a1, a2⟩, a3⟩, a4⟩ := h
  refine ⟨⟨⟨by linarith, by linarith⟩, by linarith⟩, by linarith⟩

theorem wfP_afterPush (tl br : Bound) (mo lv ml : Nat) (objs : List Obj)
    (h1 : tl.x ≤ br.x) (h2 : tl.y ≤ br.y) :
    wfP (afterPush tl br mo lv ml objs) := by
  unfold afterPush
  split
  · obtain ⟨e1, e2, e3, e4⟩ := redistribute_proj objs (split tl br mo lv ml)
    rw [e1, e2, e3, e4]
    simp only [split]
    rw [pushAll_leaf, pushAll_leaf, pushAll_leaf, pushAll_leaf]
    simp only [wfP, childB, top_left, bottom_right]
    repeat' apply And.intro
    all_goals linarith
  · exact ⟨h1, h2⟩

theorem childB_insert (tl br : Bound) (c : QuadTree) (o : Obj)
    (h : childB tl br c) : childB tl br (insert c o) := by
  obtain ⟨x1, x2, x3, x4⟩ := h
  obtain ⟨f1, f2, _, _, _⟩ := insert_fields c o
  exact ⟨by rw [f1]; exact x1, by rw [f2]; exact x2,
    by rw [f1]; exact x3, by rw [f2]; exact x4⟩

theorem wfP_insert (t : QuadTree) (o : Obj) (hw : wfP t) : wfP (insert t o) := by
  induction t with
  | leaf tl br mo lv ml objs =>
      obtain ⟨h1, h2⟩ : tl.x ≤ br.x ∧ tl.y ≤ br.y := hw
      rw [insert_leaf_eq]
      exact wfP_afterPush tl br mo lv ml (objs ++ [o]) h1 h2
  | node tl br mo lv ml objs a b c d iha ihb ihc ihd =>
      obtain ⟨hord, hca, hcbX, hcc, hcd, hwa, hwb, hwc, hwd⟩ := hw
      rw [insert_node_eq]
      have step : ∀ (c : QuadTree), childB tl br c → wfP c →
          (wfP c → wfP (insert c o)) →
          childB tl br (if c.is_inside o then insert c o else c) ∧
            wfP (if c.is_inside o then insert c o else c) := by
        intro c hc hw ih
        split
        · exact ⟨childB_insert tl br c o hc, ih hw⟩
        · exact ⟨hc, hw⟩
      obtain ⟨ca, wa⟩ := step a hca hwa (iha ·)
      obtain ⟨cb, wb⟩ := step b hcbX hwb (ihb ·)
      obtain ⟨cc, wc⟩ := step c hcc hwc (ihc ·)
      obtain ⟨cd, wd⟩ := step d hcd hwd (ihd ·)
      exact ⟨hord, ca, cb, cc, cd, wa, wb, wc, wd⟩

theorem wfP_ordered (t : QuadTree) (hw : wfP t) :
    t.top_left.x ≤ t.bottom_right.x ∧ t.top_left.y ≤ t.bottom_right.y := by
  cases t with
  | leaf tl br mo lv ml objs => exact hw
  | node tl br mo lv ml objs a b c d => exact hw.1

theorem wfP_clear (t : QuadTree) (hw : wfP t) : wfP (clear t) := by
  rw [clear_eq]
  exact wfP_ordered t hw

theorem wfP_create (pLevel : Nat) (tl br : Bound) (mo ml : Nat)
    (h1 : tl.x ≤ br.x) (h2 : tl.y ≤ br.y) : wfP (create pLevel tl br mo ml) :=
  ⟨h1, h2⟩

/-- Any tree built by the program from ordered root bounds is geometrically
well-formed. -/
theorem wfP_reachable (tl br : Bound) (mo ml : Nat) (t : QuadTree)
    (hr : Reachable tl br mo ml t) (h1 : tl.x ≤ br.x) (h2 : tl.y ≤ br.y) :
    wfP t := by
  induction hr with
  | init => exact wfP_create 0 tl br mo ml h1 h2
  | step_insert o hr ih => exact wfP_insert _ o ih
  | step_clear hr ih => exact wfP_clear _ ih

/-- In a well-formed tree, a node having a leaf below it that both stores `o`
and overlaps `q` itself overlaps `q`. -/
theorem inLeafO_is_inside (t : QuadTree) :
    ∀ (q o : Obj), wfP t → inLeafO t q o → t.is_inside q = true := by
  induction t with
  | leaf tl br mo lv ml objs =>
      intro q o _ h
      exact h.1
  | node tl br mo lv ml objs a b c d iha ihb ihc ihd =>
      intro q o hw h
      obtain ⟨hord, hcA, hcB, hcC, hcD, hwa, hwb, hwc, hwd⟩ := hw
      rcases h with h | h | h | h
      · exact is_inside_mono (.node tl br mo lv ml objs a b c d) a q hcA (iha q o hwa h)
      · exact is_inside_mono (.node tl br mo lv ml objs a b c d) b q hcB (ihb q o hwb h)
      · exact is_inside_mono (.node tl br mo lv ml objs a b c d) c q hcC (ihc q o hwc h)
      · exact is_inside_mono (.node tl br mo lv ml objs a b c d) d q hcD (ihd q o hwd h)

/-- Core retrieval soundness over well-formed trees: an object stored in some
leaf overlapping the query ends up in the result. -/
theorem retrieve_sound_wf (t : QuadTree) :
    ∀ (q o : Obj) (acc : List Obj), wfP t → inLeafO t q o → o ∈ retrieve t acc q := by
  induction t with
  | leaf tl br mo lv ml objs =>
      intro q o acc _ h
      rw [retrieve_leaf_eq]
      exact List.mem_append_right _ h.2
  | node tl br mo lv ml objs a b c d iha ihb ihc ihd =>
      intro q o acc hw h
      obtain ⟨hord, hcA, hcB, hcC, hcD, hwa, hwb, hwc, hwd⟩ := hw
      rw [retrieve_node_eq]
      have memstep : ∀ (c : QuadTree) (acc2 : List Obj), o ∈ acc2 → o ∈ rstep c q acc2 := by
        intro c acc2 hx
        unfold rstep
        split
        · exact retrieve_mono c acc2 q o hx
        · exact hx
      rcases h with h | h | h | h
      · have hin : a.is_inside q = true := inLeafO_is_inside a q o hwa h
        have h0 : o ∈ rstep a q acc := by
          unfold rstep; rw [if_pos hin]; exact iha q o acc hwa h
        exact memstep d _ (memstep c _ (memstep b _ h0))
      · have hin : b.is_inside q = true := inLeafO_is_inside b q o hwb h
        have h1 : o ∈ rstep b q (rstep a q acc) := by
          unfold rstep; rw [if_pos hin]; exact ihb q o _ hwb h
        exact memstep d _ (memstep c _ h1)
      · have hin : c.is_inside q = true := inLeafO_is_inside c q o hwc h
        have h2 : o ∈ rstep c q (rstep b q (rstep a q acc)) := by
          unfold rstep; rw [if_pos hin]; exact ihc q o _ hwc h
        exact memstep d _ h2
      · have hin : d.is_inside q = true := inLeafO_is_inside d q o hwd h
        unfold rstep
        rw [if_pos hin]
        exact ihd q o _ hwd h

/-- In a well-formed tree, a node with a positive overlapping-leaf hit count
for `q` overlaps `q`. -/
theorem leafHits_pos_inside (t : QuadTree) :
    ∀ (q o : Obj), wfP t → 0 < leafHits t q o → t.is_inside q = true := by
  induction t with
  | leaf tl br mo lv ml objs =>
      intro q o _ h
      by_contra hne
      simp only [leafHits] at h
      rw [if_neg hne] at h
      exact Nat.lt_irrefl 0 h
  | node tl br mo lv ml objs a b c d iha ihb ihc ihd =>
      intro q o hw h
      obtain ⟨hord, hcA, hcB, hcC, hcD, hwa, hwb, hwc, hwd⟩ := hw
      simp only [leafHits] at h
      have hsplit : 0 < leafHits a q o ∨ 0 < leafHits b q o ∨
          0 < leafHits c q o ∨ 0 < leafHits d q o := by omega
      rcases hsplit with h | h | h | h
      · exact is_inside_mono (.node tl br mo lv ml objs a b c d) a q hcA (iha q o hwa h)
      · exact is_inside_mono (.node tl br mo lv ml objs a b c d) b q hcB (ihb q o hwb h)
      · exact is_inside_mono (.node tl br mo lv ml objs a b c d) c q hcC (ihc q o hwc h)
      · exact is_inside_mono (.node tl br mo lv ml objs a b c d) d q hcD (ihd q o hwd h)

theorem leafHits_zero (t : QuadTree) (q o : Obj) (hw : wfP t)
    (hni : t.is_inside q = false) : leafHits t q o = 0 := by
  by_contra hne
  have h := leafHits_pos_inside t q o hw (Nat.pos_of_ne_zero hne)
  rw [hni] at h
  exact Bool.noConfusion h

/-- Counting version of retrieval soundness: the result holds the accumulator's
copies of `o` plus at least one copy per stored reference in an overlapping
leaf. -/
theorem retrieve_count (t : QuadTree) :
    ∀ (q o : Obj) (acc : List Obj), wfP t →
      acc.count o + leafHits t q o ≤ (retrieve t acc q).count o := by
  induction t with
  | leaf tl br mo lv ml objs =>
      intro q o acc _
      rw [retrieve_leaf_eq, List.count_append]
      simp only [leafHits]
      split
      · exact Nat.le_refl _
      · exact Nat.add_le_add_left (Nat.zero_le _) _
  | node tl br mo lv ml objs a b c d iha ihb ihc ihd =>
      intro q o acc hw
      obtain ⟨hord, hcA, hcB, hcC, hcD, hwa, hwb, hwc, hwd⟩ := hw
      rw [retrieve_node_eq]
      simp only [leafHits]
      have cstep : ∀ (c : QuadTree) (acc2 : List Obj), wfP c →
          (∀ acc3, acc3.count o + leafHits c q o ≤ (retrieve c acc3 q).count o) →
          acc2.count o + leafHits c q o ≤ (rstep c q acc2).count o := by
        intro c acc2 hwc ih
        unfold rstep
        cases hin : c.is_inside q with
        | true => simpa using ih acc2
        | false =>
            rw [leafHits_zero c q o hwc hin]
            simp
      have s1 := cstep a acc hwa (fun acc3 => iha q o acc3 hwa)
      have s2 := cstep b (rstep a q acc) hwb (fun acc3 => ihb q o acc3 hwb)
      have s3 := cstep c (rstep b q (rstep a q acc)) hwc (fun acc3 => ihc q o acc3 hwc)
      have s4 := cstep d (rstep c q (rstep b q (rstep a q acc))) hwd (fun acc3 => ihd q o acc3 hwd)
      omega

theorem depthOk_afterPush (tl br : Bound) (mo lv ml : Nat) (objs : List Obj)
    (h : lv ≤ ml) : depthOk (afterPush tl br mo lv ml objs) := by
  unfold afterPush
  split
  · next hcond =>
      obtain ⟨e1, e2, e3, e4⟩ := redistribute_proj objs (split tl br mo lv ml)
      rw [e1, e2, e3, e4]
      simp only [split]
      rw [pushAll_leaf, pushAll_leaf, pushAll_leaf, pushAll_leaf]
      simp only [depthOk, level, max_level]
      repeat' apply And.intro
      all_goals first
        | exact h
        | trivial
        | exact Nat.succ_le_of_lt hcond.2
  · exact h

theorem depthOk_insert (t : QuadTree) (o : Obj) :
    depthOk t → depthOk (insert t o) := by
  induction t with
  | leaf tl br mo lv ml objs =>
      intro hd
      rw [insert_leaf_eq]
      exact depthOk_afterPush tl br mo lv ml _ hd
  | node tl br mo lv ml objs a b c d iha ihb ihc ihd =>
      intro hd
      obtain ⟨h, la, lb, lc, ld, ma, mb, mc, md, da, db, dc, dd⟩ := hd
      rw [insert_node_eq]
      have step : ∀ (c : QuadTree), c.level = lv + 1 → c.max_level = ml →
          depthOk c → (depthOk c → depthOk (insert c o)) →
          (if c.is_inside o then insert c o else c).level = lv + 1 ∧
          (if c.is_inside o then insert c o else c).max_level = ml ∧
          depthOk (if c.is_inside o then insert c o else c) := by
        intro c hl hm hdc ih
        split
        · obtain ⟨_, _, _, f4, f5⟩ := insert_fields c o
          exact ⟨by rw [f4, hl], by rw [f5, hm], ih hdc⟩
        · exact ⟨hl, hm, hdc⟩
      obtain ⟨la2, ma2, da2⟩ := step a la ma da iha
      obtain ⟨lb2, mb2, db2⟩ := step b lb mb db ihb
      obtain ⟨lc2, mc2, dc2⟩ := step c lc mc dc ihc
      obtain ⟨ld2, md2, dd2⟩ := step d ld md dd ihd
      exact ⟨h, la2, lb2, lc2, ld2, ma2, mb2, mc2, md2, da2, db2, dc2, dd2⟩

theorem depthOk_root (t : QuadTree) (hd : depthOk t) : t.level ≤ t.max_level := by
  cases t with
  | leaf tl br mo lv ml objs => exact hd
  | node tl br mo lv ml objs a b c d => exact hd.1

theorem depthOk_clear (t : QuadTree) (hd : depthOk t) : depthOk (clear t) := by
  rw [clear_eq]
  exact depthOk_root t hd

/-- Every tree the program builds satisfies the depth discipline. -/
theorem depthOk_reachable (tl br : Bound) (mo ml : Nat) (t : QuadTree)
    (hr : Reachable tl br mo ml t) : depthOk t := by
  induction hr with
  | init => exact Nat.zero_le ml
  | step_insert o hr ih => exact depthOk_insert _ o ih
  | step_clear hr ih => exact depthOk_clear _ ih

/-- A leaf whose level has reached `max_level` never splits: insert just
appends. -/
theorem insert_maxLevel_leaf (tl br : Bound) (mo lv ml : Nat) (objs : List Obj)
    (o : Obj) (h : ml ≤ lv) :
    insert (.leaf tl br mo lv ml objs) o = .leaf tl br mo lv ml (objs ++ [o]) :=
  insert_noSplit_eq tl br mo lv ml objs o (by rintro ⟨-, hlt⟩; omega)

/-- Folding any list of inserts into a leaf at `max_level` keeps a single leaf
holding everything, in insertion order. -/
theorem foldl_insert_maxLevel (tl br : Bound) (mo lv ml : Nat) (h : ml ≤ lv) :
    ∀ (os objs : List Obj),
      os.foldl insert (.leaf tl br mo lv ml objs) = .leaf tl br mo lv ml (objs ++ os) := by
  intro os
  induction os with
  | nil => intro objs; simp
  | cons o os ih =>
      intro objs
      rw [List.foldl_cons, insert_maxLevel_leaf tl br mo lv ml objs o h, ih]
      simp

/-- The root of any reachable tree keeps the construction-time bounds and
parameters, and stays at level 0. -/
theorem reachable_fields (tl br : Bound) (mo ml : Nat) (t : QuadTree)
    (hr : Reachable tl br mo ml t) :
    t.top_left = tl ∧ t.bottom_right = br ∧ t.max_objects = mo ∧
    t.level = 0 ∧ t.max_level = ml := by
  induction hr with
  | init => exact ⟨rfl, rfl, rfl, rfl, rfl⟩
  | step_insert o hr ih =>
      obtain ⟨f1, f2, f3, f4, f5⟩ := insert_fields _ o
      obtain ⟨i1, i2, i3, i4, i5⟩ := ih
      exact ⟨f1.trans i1, f2.trans i2, f3.trans i3, f4.trans i4, f5.trans i5⟩
  | step_clear hr ih =>
      obtain ⟨i1, i2, i3, i4, i5⟩ := ih
      rw [clear_eq]
      exact ⟨i1, i2, i3, i4, i5⟩

end QuadTree

open QuadTree

/-- C6: for every object and every node, `is_inside(object)` returns true if
and only if `object.x + object.width >= node.top_left.x` and
`object.x <= node.bottom_right.x` and
`object.y + object.height >= node.top_left.y` and
`object.y <= node.bottom_right.y` — the inclusive (closed-boundary) AABB
intersection test on all four edges, so objects that merely touch a boundary
count as inside. -/
theorem overlap_test_spec (t : QuadTree) (o : Obj) :
    t.is_inside o = true ↔
      (o.getPosition.x + o.getSize.x ≥ t.top_left.x ∧
       o.getPosition.x ≤ t.bottom_right.x ∧
       o.getPosition.y + o.getSize.y ≥ t.top_left.y ∧
       o.getPosition.y ≤ t.bottom_right.y) := by
  simp [QuadTree.is_inside, Bool.and_eq_true, decide_eq_true_iff, and_assoc]

/-- C2: if the node is internal, `insert` recursively inserts the object into
exactly those of the four children whose bounds overlap the object's rectangle
(children that do not overlap are left untouched, and an object straddling a
boundary goes to all qualifying children); if the node is a leaf, the object's
reference is appended to the node's local list, after which the overflow check
of `afterPush` runs. -/
theorem insert_dispatch (tl br : Bound) (mo lv ml : Nat) (objs : List Obj)
    (a b c d : QuadTree) (o : Obj) :
    insert (QuadTree.node tl br mo lv ml objs a b c d) o =
      QuadTree.node tl br mo lv ml objs
        (if a.is_inside o then insert a o else a)
        (if b.is_inside o then insert b o else b)
        (if c.is_inside o then insert c o else c)
        (if d.is_inside o then insert d o else d) ∧
    insert (QuadTree.leaf tl br mo lv ml objs) o =
      afterPush tl br mo lv ml (objs ++ [o]) :=
  ⟨rfl, rfl⟩

/-- C3: `split` computes `hf_width = (r-l)/2` and `hf_height = (b-t)/2` and
creates exactly four children at `depth+1` with the stated quadrant bounds;
the four rectangles exactly partition the parent's bounds into four equal
quadrants, overlapping only on the shared midpoint lines. -/
theorem split_geometry (tl br : Bound) (mo lv ml : Nat)
    (h1 : tl.x ≤ br.x) (h2 : tl.y ≤ br.y) : splitGeom tl br mo lv ml := by
  unfold splitGeom pointIn
  refine ⟨rfl, ?_, ⟨by ring, by ring, by ring, by ring⟩, ?_⟩
  · intro px py
    constructor
    · rintro ⟨hx1, hx2, hy1, hy2⟩
      rcases le_total px (tl.x + (br.x - tl.x) / 2) with hx | hx <;>
        rcases le_total py (tl.y + (br.y - tl.y) / 2) with hy | hy
      · exact Or.inr (Or.inl ⟨by linarith, by linarith, by linarith, by linarith⟩)
      · exact Or.inr (Or.inr (Or.inl ⟨by linarith, by linarith, by linarith, by linarith⟩))
      · exact Or.inl ⟨by linarith, by linarith, by linarith, by linarith⟩
      · exact Or.inr (Or.inr (Or.inr ⟨by linarith, by linarith, by linarith, by linarith⟩))
    · rintro (⟨hx1, hx2, hy1, hy2⟩ | ⟨hx1, hx2, hy1, hy2⟩ |
          ⟨hx1, hx2, hy1, hy2⟩ | ⟨hx1, hx2, hy1, hy2⟩) <;>
        exact ⟨by linarith, by linarith, by linarith, by linarith⟩
  · intro px py
    refine ⟨?_, ?_, ?_, ?_, ?_, ?_⟩ <;>
      rintro ⟨⟨a1, a2, a3, a4⟩, b1, b2, b3, b4⟩
    · exact Or.inl (le_antisymm b2 a1)
    · exact Or.inl (le_antisymm b2 a1)
    · exact Or.inr (le_antisymm a4 b3)
    · exact Or.inr (le_antisymm a4 b3)
    · exact Or.inl (le_antisymm a2 b1)
    · exact Or.inl (le_antisymm a2 b1)

/-- Witness for C3 at bounds (0,0)-(100,100), maxObjectsPerNode 1, depth 0,
maxDepth 4. -/
theorem split_geometry_witness :
    (bTL.x ≤ bBR.x ∧ bTL.y ≤ bBR.y) ∧ splitGeom bTL bBR 1 0 4 :=
  ⟨⟨by decide, by decide⟩, split_geometry bTL bBR 1 0 4 (by decide) (by decide)⟩

/-- C9: with bounds (0,0)-(100,100), maxObjectsPerNode 1, maxDepth 4:
inserting A at (10,10) size (5,5) causes no split (one leaf holding [A]);
inserting B at (60,60) size (5,5) triggers a split (the root becomes internal
and its local list is cleared); afterwards a query at (10,10) size (5,5)
returns exactly [A] and a query spanning (0,0)-(100,100) returns exactly
[A, B]. -/
theorem end_to_end_scenario :
    (isLeaf sampleT1 = true ∧ sampleT1.node_objects = [oA]) ∧
    (isLeaf sampleT2 = false ∧ sampleT2.node_objects = []) ∧
    retrieve sampleT2 [] qA = [oA] ∧
    retrieve sampleT2 [] qAll = [oA, oB] := by
  refine ⟨⟨?_, ?_⟩, ⟨?_, ?_⟩, ?_, ?_⟩ <;> decide

/-- C1: for every object O inserted into the tree and every query object Q, if
O's and Q's rectangles overlap per the inclusive AABB test and O is stored in
at least one leaf whose bounds overlap Q's rectangle, then O appears at least
once in the accumulator returned by `retrieve(acc, Q)`.  The tree is any tree
the program can build from ordered root bounds. -/
theorem retrieval_soundness (tl br : Bound) (mo ml : Nat) (t : QuadTree)
    (q o : Obj) (acc : List Obj)
    (hb1 : tl.x ≤ br.x) (hb2 : tl.y ≤ br.y)
    (hr : Reachable tl br mo ml t)
    (_hov : objOverlap o q)
    (hst : inLeafO t q o) :
    o ∈ retrieve t acc q :=
  retrieve_sound_wf t q o acc (wfP_reachable tl br mo ml t hr hb1 hb2) hst

/-- Witness for C1 on the end-to-end scenario tree: A is stored in the
top-left leaf, which overlaps the query at (10,10) size (5,5). -/
theorem retrieval_soundness_witness :
    (bTL.x ≤ bBR.x ∧ bTL.y ≤ bBR.y) ∧ objOverlap oA qA ∧ inLeafO sampleT2 qA oA ∧
      oA ∈ retrieve sampleT2 [] qA :=
  ⟨⟨by decide, by decide⟩, by decide, by decide,
    retrieval_soundness bTL bBR 1 4 sampleT2 qA oA [] (by decide) (by decide)
      (Reachable.step_insert oB (Reachable.step_insert oA Reachable.init))
      (by decide) (by decide)⟩

/-- C4: in every tree reachable from construction by any sequence of insert
and clear calls, each child's depth equals its parent's depth plus 1 and no
node's depth exceeds `maxDepth` (`depthOk`); moreover a leaf whose depth has
reached `maxDepth` never splits no matter how many objects are inserted — it
stays a single leaf holding every inserted object. -/
theorem depth_bound (tl br : Bound) (mo ml : Nat) (t : QuadTree)
    (hr : Reachable tl br mo ml t) :
    depthOk t ∧
      (∀ (tl2 br2 : Bound) (mo2 lv2 ml2 : Nat) (objs os : List Obj), ml2 ≤ lv2 →
        os.foldl insert (QuadTree.leaf tl2 br2 mo2 lv2 ml2 objs)
          = QuadTree.leaf tl2 br2 mo2 lv2 ml2 (objs ++ os)) :=
  ⟨depthOk_reachable tl br mo ml t hr,
    fun tl2 br2 mo2 lv2 ml2 objs os h => foldl_insert_maxLevel tl2 br2 mo2 lv2 ml2 h os objs⟩

/-- Witness for C4: the scenario tree satisfies the depth discipline, and
inserting 1000 objects into a maxDepth=0, maxObjectsPerNode=4 tree yields one
leaf holding all 1000. -/
theorem depth_bound_witness :
    depthOk sampleT2 ∧
      (List.replicate 1000 oA).foldl insert (create 0 bTL bBR 4 0)
        = QuadTree.leaf bTL bBR 4 0 0 (List.replicate 1000 oA) := by
  refine ⟨(depth_bound bTL bBR 1 4 sampleT2
    (Reachable.step_insert oB (Reachable.step_insert oA Reachable.init))).1, ?_⟩
  have h := (depth_bound bTL bBR 4 0 (create 0 bTL bBR 4 0) Reachable.init).2
    bTL bBR 4 0 0 [] (List.replicate 1000 oA) (Nat.le_refl 0)
  rw [List.nil_append] at h
  exact h

/-- C7: for every reachable tree, `clear()` leaves the node a single empty
leaf with the original root bounds, depth, maxDepth and maxObjectsPerNode
(i.e. exactly the freshly constructed tree), and `clear` composed with `clear`
equals a single `clear` (so clearing an already-empty tree leaves it empty). -/
theorem clear_resets (tl br : Bound) (mo ml : Nat) (t : QuadTree)
    (hr : Reachable tl br mo ml t) :
    clear t = create 0 tl br mo ml ∧
    (clear t).node_objects = [] ∧ isLeaf (clear t) = true ∧
    clear (clear t) = clear t := by
  obtain ⟨f1, f2, f3, f4, f5⟩ := reachable_fields tl br mo ml t hr
  refine ⟨?_, ?_, ?_, ?_⟩
  · rw [clear_eq, f1, f2, f3, f4, f5]; rfl
  · rw [clear_eq]; rfl
  · rw [clear_eq]; rfl
  · rw [clear_eq t]; rfl

/-- Witness for C7 on the end-to-end scenario tree. -/
theorem clear_resets_witness :
    clear sampleT2 = create 0 bTL bBR 1 4 ∧
    (clear sampleT2).node_objects = [] ∧ isLeaf (clear sampleT2) = true ∧
    clear (clear sampleT2) = clear sampleT2 :=
  clear_resets bTL bBR 1 4 sampleT2
    (Reachable.step_insert oB (Reachable.step_insert oA Reachable.init))

/-- Counterexample to C5 as stated: starting from bounds (0,0)-(100,100),
maxObjectsPerNode 1, maxDepth 2, inserting (10,10,5,5) and then (20,20,5,5)
makes the root split; both objects are redistributed into the top-left child
by direct push, so after the insert completes that child is a leaf at depth
1 < maxDepth holding 2 > maxObjectsPerNode objects. -/
theorem leaf_capacity_counterexample :
    overfullLeaf (insert (insert (create 0 bTL bBR 1 2) oA) oC) := by decide

/-- C5 (amended): whenever an insert makes a leaf's object-list size exceed
`maxObjectsPerNode` while the leaf's depth is less than `maxDepth`, the leaf
splits, redistributes every currently-held object (processed in reverse order)
into whichever children overlap it by appending directly to the child's local
list — without recursive insertion, so a receiving child may itself end up
holding more than `maxObjectsPerNode` objects without splitting — and clears
its own list. -/
theorem leaf_capacity_amended (tl br : Bound) (mo lv ml : Nat) (objs : List Obj)
    (o : Obj) (h1 : mo < (objs ++ [o]).length) (h2 : lv < ml) :
    insert (QuadTree.leaf tl br mo lv ml objs) o =
      QuadTree.node tl br mo lv ml []
        (pushAll (split tl br mo lv ml).1
          (((objs ++ [o]).reverse).filter fun x => (split tl br mo lv ml).1.is_inside x))
        (pushAll (split tl br mo lv ml).2.1
          (((objs ++ [o]).reverse).filter fun x => (split tl br mo lv ml).2.1.is_inside x))
        (pushAll (split tl br mo lv ml).2.2.1
          (((objs ++ [o]).reverse).filter fun x => (split tl br mo lv ml).2.2.1.is_inside x))
        (pushAll (split tl br mo lv ml).2.2.2
          (((objs ++ [o]).reverse).filter fun x => (split tl br mo lv ml).2.2.2.is_inside x)) :=
  insert_overflow_eq tl br mo lv ml objs o h1 h2

/-- Witness for the amended C5 at the counterexample input. -/
theorem leaf_capacity_amended_witness :
    1 < ([oA] ++ [oC]).length ∧ 0 < 2 ∧
      insert (QuadTree.leaf bTL bBR 1 0 2 [oA]) oC =
        QuadTree.node bTL bBR 1 0 2 []
          (pushAll (split bTL bBR 1 0 2).1
            ((([oA] ++ [oC]).reverse).filter fun x => (split bTL bBR 1 0 2).1.is_inside x))
          (pushAll (split bTL bBR 1 0 2).2.1
            ((([oA] ++ [oC]).reverse).filter fun x => (split bTL bBR 1 0 2).2.1.is_inside x))
          (pushAll (split bTL bBR 1 0 2).2.2.1
            ((([oA] ++ [oC]).reverse).filter fun x => (split bTL bBR 1 0 2).2.2.1.is_inside x))
          (pushAll (split bTL bBR 1 0 2).2.2.2
            ((([oA] ++ [oC]).reverse).filter fun x => (split bTL bBR 1 0 2).2.2.2.is_inside x)) :=
  ⟨by decide, by decide, leaf_capacity_amended bTL bBR 1 0 2 [oA] oC (by decide) (by decide)⟩

/-- C8: in any reachable tree that has split (is internal), if an object's
stored references lie in overlapping leaves at least twice for a query Q (as
when one straddling object is stored in two sibling leaves both overlapping
Q), then the accumulator returned by retrieve contains that object's
reference at least twice. -/
theorem duplicate_tolerance (tl br : Bound) (mo ml : Nat) (t : QuadTree)
    (q o : Obj) (acc : List Obj)
    (hb1 : tl.x ≤ br.x) (hb2 : tl.y ≤ br.y)
    (hr : Reachable tl br mo ml t)
    (_hsplit : isLeaf t = false)
    (hhits : 2 ≤ leafHits t q o) :
    2 ≤ (retrieve t acc q).count o := by
  have hw := wfP_reachable tl br mo ml t hr hb1 hb2
  have h := retrieve_count t q o acc hw
  omega

/-- Witness for C8: the straddling object (48,48,4,4) is stored in all four
sibling leaves of the split tree, and a query overlapping the centre retrieves
it (at least) twice. -/
theorem duplicate_tolerance_witness :
    isLeaf dupTree = false ∧ 2 ≤ leafHits dupTree qMid oS ∧
      2 ≤ (retrieve dupTree [] qMid).count oS :=
  ⟨by decide, by decide,
    duplicate_tolerance bTL bBR 1 4 dupTree qMid oS [] (by decide) (by decide)
      (Reachable.step_insert oB (Reachable.step_insert oS Reachable.init))
      (by decide) (by decide)⟩

/-- C10: a leaf insert appends the object without testing it against the
node's bounds, so an object whose rectangle does not overlap the tree's bounds
is still stored and is returned by retrieves reaching that leaf; but at an
internal node an object overlapping none of the four children leaves the tree
unchanged (silently dropped), and during a split's redistribution an object
overlapping none of the four children's bounds is stored in no node of the
resulting tree. -/
theorem out_of_bounds_behavior (tl br : Bound) (mo lv ml : Nat)
    (objs : List Obj) (o : Obj) :
    ((QuadTree.leaf tl br mo lv ml objs).is_inside o = false →
      ¬((objs ++ [o]).length > mo ∧ lv < ml) →
      (insert (QuadTree.leaf tl br mo lv ml objs) o).node_objects = objs ++ [o] ∧
      ∀ (q : Obj) (acc : List Obj),
        retrieve (insert (QuadTree.leaf tl br mo lv ml objs) o) acc q
          = acc ++ (objs ++ [o])) ∧
    (∀ a b c d : QuadTree,
      a.is_inside o = false → b.is_inside o = false →
      c.is_inside o = false → d.is_inside o = false →
      insert (QuadTree.node tl br mo lv ml objs a b c d) o =
        QuadTree.node tl br mo lv ml objs a b c d) ∧
    (∀ x : Obj, mo < (objs ++ [o]).length → lv < ml →
      (split tl br mo lv ml).1.is_inside x = false →
      (split tl br mo lv ml).2.1.is_inside x = false →
      (split tl br mo lv ml).2.2.1.is_inside x = false →
      (split tl br mo lv ml).2.2.2.is_inside x = false →
      x ∉ allObjects (insert (QuadTree.leaf tl br mo lv ml objs) o)) := by
  refine ⟨?_, ?_, ?_⟩
  · intro _hni hno
    rw [insert_noSplit_eq tl br mo lv ml objs o hno]
    exact ⟨rfl, fun q acc => rfl⟩
  · intro a b c d ha hb hc hd
    rw [insert_node_eq]
    rw [if_neg (by simp [ha]), if_neg (by simp [hb]),
      if_neg (by simp [hc]), if_neg (by simp [hd])]
  · intro x h1 h2 s0 s1 s2 s3
    rw [insert_overflow_eq tl br mo lv ml objs o h1 h2]
    simp only [split] at s0 s1 s2 s3 ⊢
    rw [pushAll_leaf, pushAll_leaf, pushAll_leaf, pushAll_leaf]
    simp only [allObjects, List.nil_append]
    intro hmem
    simp only [List.mem_append, List.mem_filter] at hmem
    rcases hmem with ((hm | hm) | hm) | hm <;>
      simp [List.mem_filter, s0, s1, s2, s3] at hm

/-- Witness for C10: the out-of-bounds object (200,200,5,5) is stored by a
leaf insert and returned by a retrieve; at an internal node it changes
nothing; and an out-of-bounds object caught in a split's redistribution is
dropped from the whole tree. -/
theorem out_of_bounds_behavior_witness :
    ((insert (QuadTree.leaf bTL bBR 5 0 2 []) oOut).node_objects = [oOut] ∧
      retrieve (insert (QuadTree.leaf bTL bBR 5 0 2 []) oOut) [] qA = [oOut]) ∧
    (insert (QuadTree.node bTL bBR 1 0 2 []
        (split bTL bBR 1 0 2).1 (split bTL bBR 1 0 2).2.1
        (split bTL bBR 1 0 2).2.2.1 (split bTL bBR 1 0 2).2.2.2) oOut
      = QuadTree.node bTL bBR 1 0 2 []
        (split bTL bBR 1 0 2).1 (split bTL bBR 1 0 2).2.1
        (split bTL bBR 1 0 2).2.2.1 (split bTL bBR 1 0 2).2.2.2) ∧
    oOut2 ∉ allObjects (insert (QuadTree.leaf bTL bBR 1 0 2 [oOut]) oOut2) := by
  refine ⟨?_, ?_, ?_⟩
  · obtain ⟨ha, hb⟩ := (out_of_bounds_behavior bTL bBR 5 0 2 [] oOut).1
      (by decide) (by decide)
    refine ⟨by simpa using ha, ?_⟩
    have h := hb qA []
    simpa using h
  · exact (out_of_bounds_behavior bTL bBR 1 0 2 [] oOut).2.1
      (split bTL bBR 1 0 2).1 (split bTL bBR 1 0 2).2.1
      (split bTL bBR 1 0 2).2.2.1 (split bTL bBR 1 0 2).2.2.2
      (by decide) (by decide) (by decide) (by decide)
  · exact (out_of_bounds_behavior bTL bBR 1 0 2 [oOut] oOut2).2.2 oOut2
      (by decide) (by decide) (by decide) (by decide) (by decide) (by decide)
